import Mathlib

/-!
Shallow embedding of the transaction-processor repository
(src/lib.rs and src/numeric.rs) in Lean 4, together with theorems
settling the frozen claims about its specification.

The account state machine (ClientAccount and TransactionProcessor) is
translated from src/lib.rs.  The decimal amount type delegates its
arithmetic, parsing and formatting to the external rust_decimal crate,
whose source is not part of this repository; those operations are
modelled from the specification (see the doc comments below).

Mutable-reference methods of the Rust code are embedded in
state-passing style: each operation returns the pair of its result and
the final state, so that atomicity (the state returned on an error
path) is a provable property rather than an artifact of the embedding.
-/

deriving instance DecidableEq for Except

namespace TxProc

/-- A client identifier (u16 in the Rust source). -/
abbrev ClientId := Nat

/-- A transaction identifier (u32 in the Rust source). -/
abbrev TransactionId := Nat

/-- Error from arithmetic on currency amounts (src/numeric.rs). -/
inductive CurrencyError where
  | OutOfBounds
deriving DecidableEq, Repr

/-- Error from parsing a string to a currency amount (src/numeric.rs). -/
inductive CurrencyAmountParseError where
  | InvalidNumericValue
deriving DecidableEq, Repr

/-- Modelled from the spec: the decimal value representation of the
external rust_decimal crate (not in src/), as described in the spec
data model: an exact decimal number with a sign and a scale, magnitude
bounded by 2^96 scaled by 10^-scale.  `mantissa` is the signed scaled
integer and `scale` the number of fractional digits. -/
structure CurrencyAmount where
  mantissa : Int
  scale : Nat
deriving DecidableEq, Repr

/-- The exclusive bound on the mantissa magnitude (96-bit mantissa). -/
def maxMantissa : Nat := 2 ^ 96

namespace CurrencyAmount

/-- Constant value of 0.0 (src/numeric.rs, CurrencyAmount::ZERO). -/
def ZERO : CurrencyAmount := ⟨0, 0⟩

/-- Returns true if this value is less than zero
(src/numeric.rs, CurrencyAmount::is_negative). -/
def is_negative (a : CurrencyAmount) : Bool := a.mantissa < 0

/-- The exact rational value denoted by an amount. -/
def val (a : CurrencyAmount) : ℚ := (a.mantissa : ℚ) / 10 ^ a.scale

/-- Modelled from the spec: checked addition of the external decimal
type (rust_decimal Decimal::checked_add, not in src/), wrapped by the
Add impl for CurrencyAmount in src/numeric.rs.  Per the spec: exact
decimal arithmetic failing only when the true result''s magnitude
exceeds the representable range.  The exact sum of two amounts with
scales sa and sb is representable at scale max sa sb. -/
def checkedAdd (a b : CurrencyAmount) : Except CurrencyError CurrencyAmount :=
  let s := max a.scale b.scale
  let m := a.mantissa * (10 : Int) ^ (s - a.scale) + b.mantissa * (10 : Int) ^ (s - b.scale)
  if m.natAbs < maxMantissa then .ok ⟨m, s⟩ else .error .OutOfBounds

/-- Modelled from the spec: checked subtraction of the external decimal
type (rust_decimal Decimal::checked_sub, not in src/), wrapped by the
Sub impl for CurrencyAmount in src/numeric.rs. -/
def checkedSub (a b : CurrencyAmount) : Except CurrencyError CurrencyAmount :=
  let s := max a.scale b.scale
  let m := a.mantissa * (10 : Int) ^ (s - a.scale) - b.mantissa * (10 : Int) ^ (s - b.scale)
  if m.natAbs < maxMantissa then .ok ⟨m, s⟩ else .error .OutOfBounds

/-- Exact negation (src/numeric.rs, Neg impl; always succeeds). -/
def neg (a : CurrencyAmount) : CurrencyAmount := ⟨-a.mantissa, a.scale⟩

end CurrencyAmount

/-- Error returned when a transaction could not be applied to an
account (src/lib.rs, TransactionError). -/
inductive TransactionError where
  | TransactionDoesNotExist (tx : TransactionId)
  | TransactionAlreadyExists (tx : TransactionId)
  | DisputeAlreadyExists (tx : TransactionId)
  | DisputeDoesNotExist (tx : TransactionId)
  | CurrencyError (err : CurrencyError)
  | AccountIsLocked
  | NotEnoughFunds
deriving DecidableEq, Repr

/-- The two ways a dispute can be resolved (src/lib.rs, DisputeResolution). -/
inductive DisputeResolution where
  | Resolve
  | Chargeback
deriving DecidableEq, Repr

/-- Per-client account state (src/lib.rs, ClientAccount).  The Rust
HashMap of transactions is embedded as an association list and the
HashSet of active disputes as a list of ids. -/
structure ClientAccount where
  available : CurrencyAmount
  held : CurrencyAmount
  transactions : List (TransactionId × CurrencyAmount)
  active_disputes : List TransactionId
  locked : Bool
deriving DecidableEq, Repr

/-- HashSet::insert: returns whether the element was newly inserted,
and the resulting set; inserting a present element leaves the set
unchanged. -/
def insertSet (s : List TransactionId) (tx : TransactionId) : Bool × List TransactionId :=
  if tx ∈ s then (false, s) else (true, tx :: s)

/-- HashSet::remove: returns whether the element was present, and the
resulting set; removing an absent element leaves the set unchanged. -/
def removeSet (s : List TransactionId) (tx : TransactionId) : Bool × List TransactionId :=
  if tx ∈ s then (true, s.filter (fun x => x ≠ tx)) else (false, s)

namespace ClientAccount

/-- Fresh zero-balance unlocked account (src/lib.rs, ClientAccount::new). -/
def new : ClientAccount :=
  { available := CurrencyAmount.ZERO
    held := CurrencyAmount.ZERO
    transactions := []
    active_disputes := []
    locked := false }

/-- Sum of available and held funds (src/lib.rs, ClientAccount::total). -/
def total (acc : ClientAccount) : Except CurrencyError CurrencyAmount :=
  acc.available.checkedAdd acc.held

/-- Disputes the specified transaction (src/lib.rs,
ClientAccount::create_dispute).  Returns the result together with the
final state of the mutable receiver. -/
def create_dispute (acc : ClientAccount) (tx : TransactionId) :
    Except TransactionError Unit × ClientAccount :=
  match acc.transactions.lookup tx with
  | none => (.error (.TransactionDoesNotExist tx), acc)
  | some amount =>
    match acc.held.checkedAdd amount with
    | .error e => (.error (.CurrencyError e), acc)
    | .ok new_held =>
      match acc.available.checkedSub amount with
      | .error e => (.error (.CurrencyError e), acc)
      | .ok new_available =>
        let (inserted, disputes) := insertSet acc.active_disputes tx
        if !inserted then
          (.error (.DisputeAlreadyExists tx), { acc with active_disputes := disputes })
        else
          (.ok (), { acc with
            active_disputes := disputes
            held := new_held
            available := new_available })

/-- Resolves an existing dispute in the specified manner (src/lib.rs,
ClientAccount::resolve_dispute).  Returns the result together with the
final state of the mutable receiver. -/
def resolve_dispute (acc : ClientAccount) (tx : TransactionId)
    (resolution : DisputeResolution) :
    Except TransactionError Unit × ClientAccount :=
  match acc.transactions.lookup tx with
  | none => (.error (.TransactionDoesNotExist tx), acc)
  | some amount =>
    match acc.held.checkedSub amount with
    | .error e => (.error (.CurrencyError e), acc)
    | .ok new_held =>
      match (match resolution with
             | .Resolve => acc.available.checkedAdd amount
             | .Chargeback => .ok acc.available : Except CurrencyError CurrencyAmount) with
      | .error e => (.error (.CurrencyError e), acc)
      | .ok new_available =>
        let (removed, disputes) := removeSet acc.active_disputes tx
        if !removed then
          (.error (.DisputeDoesNotExist tx), { acc with active_disputes := disputes })
        else
          let acc1 :=
            match resolution with
            | .Chargeback =>
              { acc with
                active_disputes := disputes
                transactions := acc.transactions.filter (fun p => p.1 ≠ tx)
                locked := true }
            | .Resolve => { acc with active_disputes := disputes }
          (.ok (), { acc1 with held := new_held, available := new_available })

/-- Increases the available funds by the specified amount (src/lib.rs,
ClientAccount::deposit).  Returns the result together with the final
state of the mutable receiver. -/
def deposit (acc : ClientAccount) (tx : TransactionId) (amount : CurrencyAmount) :
    Except TransactionError Unit × ClientAccount :=
  if acc.locked then (.error .AccountIsLocked, acc)
  else
    match acc.available.checkedAdd amount with
    | .error e => (.error (.CurrencyError e), acc)
    | .ok new_available =>
      if new_available.is_negative then (.error .NotEnoughFunds, acc)
      else
        match acc.transactions.lookup tx with
        | some _ => (.error (.TransactionAlreadyExists tx), acc)
        | none =>
          (.ok (), { acc with
            transactions := (tx, amount) :: acc.transactions
            available := new_available })

/-- Reduces the available funds by the specified amount (src/lib.rs,
ClientAccount::withdraw): defined as a deposit of the negated amount. -/
def withdraw (acc : ClientAccount) (tx : TransactionId) (amount : CurrencyAmount) :
    Except TransactionError Unit × ClientAccount :=
  acc.deposit tx amount.neg

end ClientAccount

/-- One operation on a single client account, used to describe
reachable account states. -/
inductive AccountOp where
  | deposit (tx : TransactionId) (amount : CurrencyAmount)
  | withdraw (tx : TransactionId) (amount : CurrencyAmount)
  | dispute (tx : TransactionId)
  | resolve (tx : TransactionId)
  | chargeback (tx : TransactionId)
deriving DecidableEq, Repr

/-- Applies one operation to an account, returning the result and the
final state (dispatch as in TransactionProcessor::transact). -/
def ClientAccount.applyOp (acc : ClientAccount) (op : AccountOp) :
    Except TransactionError Unit × ClientAccount :=
  match op with
  | .deposit tx amount => acc.deposit tx amount
  | .withdraw tx amount => acc.withdraw tx amount
  | .dispute tx => acc.create_dispute tx
  | .resolve tx => acc.resolve_dispute tx .Resolve
  | .chargeback tx => acc.resolve_dispute tx .Chargeback

/-- The state of the account after one operation, whether or not the
operation succeeded (the Rust caller keeps the account either way). -/
def ClientAccount.step (acc : ClientAccount) (op : AccountOp) : ClientAccount :=
  (acc.applyOp op).2

/-- The state of the account after a sequence of operations. -/
def ClientAccount.run (acc : ClientAccount) (ops : List AccountOp) : ClientAccount :=
  ops.foldl ClientAccount.step acc

/-- An account state reachable from a fresh account by some sequence
of operations, successful or failed. -/
def ReachableAccount (acc : ClientAccount) : Prop :=
  ∃ ops : List AccountOp, ClientAccount.run ClientAccount.new ops = acc

/-- The per-account invariant of claim C6: every actively disputed
transaction id is a key of records, and the record keys are distinct. -/
def AccountInv (acc : ClientAccount) : Prop :=
  (∀ tx ∈ acc.active_disputes, (acc.transactions.lookup tx).isSome = true) ∧
  (acc.transactions.map Prod.fst).Nodup

/-- A description of a specific client account in a generated report
(src/lib.rs, ReportEntry). -/
structure ReportEntry where
  client : ClientId
  available : CurrencyAmount
  held : CurrencyAmount
  total : CurrencyAmount
  locked : Bool
deriving DecidableEq, Repr

/-- The type of a transaction (src/lib.rs, TransactionType). -/
inductive TransactionType where
  | Deposit (amount : CurrencyAmount)
  | Withdrawal (amount : CurrencyAmount)
  | Dispute
  | Resolve
  | Chargeback
deriving DecidableEq, Repr

/-- A struct representing a transaction (src/lib.rs, Transaction). -/
structure Transaction where
  client : ClientId
  tx : TransactionId
  transaction_type : TransactionType
deriving DecidableEq, Repr

/-- Transaction processor main struct (src/lib.rs,
TransactionProcessor).  The Rust BTreeMap is embedded as an
association list whose keys are kept in strictly ascending order. -/
structure TransactionProcessor where
  clients : List (ClientId × ClientAccount)
deriving DecidableEq, Repr

/-- BTreeMap insert-or-replace keeping keys strictly ascending. -/
def setClient : List (ClientId × ClientAccount) → ClientId → ClientAccount →
    List (ClientId × ClientAccount)
  | [], cid, acc => [(cid, acc)]
  | (c, a) :: rest, cid, acc =>
    if cid < c then (cid, acc) :: (c, a) :: rest
    else if cid = c then (cid, acc) :: rest
    else (c, a) :: setClient rest cid acc

namespace TransactionProcessor

/-- A processor with no client accounts (src/lib.rs,
TransactionProcessor::new). -/
def new : TransactionProcessor := ⟨[]⟩

/-- Attempts to apply the specified transaction (src/lib.rs,
TransactionProcessor::transact).  The client account is created if
absent, then the operation is dispatched; the account is kept whether
or not the operation succeeded. -/
def transact (tp : TransactionProcessor) (t : Transaction) :
    Except TransactionError Unit × TransactionProcessor :=
  let acc := ((tp.clients.lookup t.client).getD ClientAccount.new)
  let (r, acc1) :=
    match t.transaction_type with
    | .Deposit amount => acc.deposit t.tx amount
    | .Withdrawal amount => acc.withdraw t.tx amount
    | .Dispute => acc.create_dispute t.tx
    | .Resolve => acc.resolve_dispute t.tx .Resolve
    | .Chargeback => acc.resolve_dispute t.tx .Chargeback
  (r, ⟨setClient tp.clients t.client acc1⟩)

/-- Generates a report of the state of all client accounts (src/lib.rs,
TransactionProcessor::generate_report).  Accounts whose total
overflows are skipped.  The Rust method takes the receiver by shared
reference, so it cannot mutate any account; here it is a pure function
of the state. -/
def generate_report (tp : TransactionProcessor) : List ReportEntry :=
  tp.clients.filterMap fun p =>
    match p.2.total with
    | .ok t => some
      { client := p.1
        available := p.2.available
        held := p.2.held
        total := t
        locked := p.2.locked }
    | .error _ => none

end TransactionProcessor

/-- The row computation of generate_report as a named function: the
body of the filter_map closure in src/lib.rs lines 271-287. -/
def reportRow (p : ClientId × ClientAccount) : Option ReportEntry :=
  match p.2.total with
  | .ok t => some
    { client := p.1
      available := p.2.available
      held := p.2.held
      total := t
      locked := p.2.locked }
  | .error _ => none

/-- Numeric value of a decimal digit character. -/
def charDigit (c : Char) : Nat := c.toNat - 48

/-- The character of a decimal digit. -/
def digitChar (d : Nat) : Char := Char.ofNat (48 + d)

/-- Whether a character is a decimal digit. -/
def isDigitChar (c : Char) : Bool := 48 ≤ c.toNat && c.toNat ≤ 57

/-- Value of a most-significant-first list of digit characters. -/
def natVal (cs : List Char) : Nat := cs.foldl (fun a c => 10 * a + charDigit c) 0

/-- Decimal digits, least significant first, by fuelled recursion;
empty for zero. -/
def digitsLSD : Nat → Nat → List Nat
  | 0, _ => []
  | fuel + 1, n => if n = 0 then [] else n % 10 :: digitsLSD fuel (n / 10)

/-- Decimal digits of a natural number, least significant first. -/
def natDigits (n : Nat) : List Nat := digitsLSD n n

/-- Modelled from the spec: the unsigned part of decimal parsing of
the external rust_decimal crate (not in src/): optional integer
digits, optional single decimal point, optional fraction digits, at
least one digit overall; returns the digits as a number together with
the count of fraction digits (the scale). -/
def parseUnsigned (cs : List Char) : Option (Nat × Nat) :=
  let intPart := cs.takeWhile isDigitChar
  let rest := cs.dropWhile isDigitChar
  match rest with
  | [] => if intPart.isEmpty then none else some (natVal intPart, 0)
  | '.' :: frac =>
    if frac.all isDigitChar && (!intPart.isEmpty || !frac.isEmpty) then
      some (natVal (intPart ++ frac), frac.length)
    else none
  | _ => none

/-- Modelled from the spec: string parsing of the external decimal
type (rust_decimal Decimal::from_str, not in src/), wrapped by the
FromStr impl in src/numeric.rs.  An optional sign precedes the
unsigned part; values needing more digits than the representable
range fail InvalidNumericValue; negative zero collapses to zero. -/
def parseAmount (s : String) : Except CurrencyAmountParseError CurrencyAmount :=
  let cs := s.toList
  let neg := decide (cs.head? = some '-')
  let body := if cs.head? = some '-' ∨ cs.head? = some '+' then cs.tail else cs
  match parseUnsigned body with
  | none => .error .InvalidNumericValue
  | some (n, sc) =>
    if n < maxMantissa then
      .ok ⟨if neg then -(n : Int) else (n : Int), sc⟩
    else .error .InvalidNumericValue

/-- Modelled from the spec: formatting of the external decimal type
(rust_decimal Display, not in src/), wrapped by the Display impl in
src/numeric.rs: the mantissa digits padded so the integer part has at
least one digit, a decimal point exactly when the scale is positive
(preserving trailing zeros), a sign exactly when strictly negative. -/
def formatAmount (a : CurrencyAmount) : String :=
  let ds := (natDigits a.mantissa.natAbs).reverse
  let padded := List.replicate (a.scale + 1 - ds.length) 0 ++ ds
  let intDigits := (padded.take (padded.length - a.scale)).map digitChar
  let fracDigits := (padded.drop (padded.length - a.scale)).map digitChar
  String.mk ((if a.mantissa < 0 then ['-'] else []) ++ intDigits ++
    (if a.scale = 0 then [] else '.' :: fracDigits))

/-! Helper lemmas: each account operation either succeeds or returns
the receiver exactly as it was (the no-op property of HashSet insert
and remove in the error branches makes this true of the Rust code). -/

theorem deposit_ok_or_id (acc : ClientAccount) (tx : TransactionId) (amount : CurrencyAmount) :
    (acc.deposit tx amount).1 = .ok () ∨ (acc.deposit tx amount).2 = acc := by
  unfold ClientAccount.deposit
  split
  · exact Or.inr rfl
  · split
    · exact Or.inr rfl
    · split
      · exact Or.inr rfl
      · split
        · exact Or.inr rfl
        · exact Or.inl rfl

theorem create_dispute_ok_or_id (acc : ClientAccount) (tx : TransactionId) :
    (acc.create_dispute tx).1 = .ok () ∨ (acc.create_dispute tx).2 = acc := by
  unfold ClientAccount.create_dispute insertSet
  by_cases htx : tx ∈ acc.active_disputes <;>
    cases hl : acc.transactions.lookup tx <;>
    simp [htx, hl] <;>
    (try cases hadd : acc.held.checkedAdd _) <;>
    simp [htx, hl] <;>
    (try cases hsub : acc.available.checkedSub _) <;>
    simp [htx, hl]

theorem resolve_dispute_ok_or_id (acc : ClientAccount) (tx : TransactionId)
    (resolution : DisputeResolution) :
    (acc.resolve_dispute tx resolution).1 = .ok () ∨
      (acc.resolve_dispute tx resolution).2 = acc := by
  unfold ClientAccount.resolve_dispute removeSet
  by_cases htx : tx ∈ acc.active_disputes <;>
    cases resolution <;>
    cases hl : acc.transactions.lookup tx <;>
    simp [htx, hl] <;>
    (try cases hsub : acc.held.checkedSub _) <;>
    simp [htx, hl] <;>
    (try cases hadd : acc.available.checkedAdd _) <;>
    simp [htx, hl]

theorem applyOp_ok_or_id (acc : ClientAccount) (op : AccountOp) :
    (acc.applyOp op).1 = .ok () ∨ (acc.applyOp op).2 = acc := by
  cases op with
  | deposit tx amount => exact deposit_ok_or_id acc tx amount
  | withdraw tx amount => exact deposit_ok_or_id acc tx amount.neg
  | dispute tx => exact create_dispute_ok_or_id acc tx
  | resolve tx => exact resolve_dispute_ok_or_id acc tx .Resolve
  | chargeback tx => exact resolve_dispute_ok_or_id acc tx .Chargeback


/-! Characterization lemmas: the exact success conditions and success
states of each account operation, read off the source. -/

theorem deposit_eq_of_ok (acc : ClientAccount) (tx : TransactionId) (amount v : CurrencyAmount)
    (hl : acc.locked = false) (ha : acc.available.checkedAdd amount = .ok v)
    (hn : v.is_negative = false) (ht : acc.transactions.lookup tx = none) :
    acc.deposit tx amount =
      (.ok (), { acc with transactions := (tx, amount) :: acc.transactions, available := v }) := by
  simp [ClientAccount.deposit, hl, ha, hn, ht]

theorem deposit_ok_inv (acc : ClientAccount) (tx : TransactionId) (amount : CurrencyAmount)
    (h : (acc.deposit tx amount).1 = .ok ()) :
    acc.locked = false ∧ ∃ v, acc.available.checkedAdd amount = .ok v ∧
      v.is_negative = false ∧ acc.transactions.lookup tx = none ∧
      (acc.deposit tx amount).2 =
        { acc with transactions := (tx, amount) :: acc.transactions, available := v } := by
  by_cases hl : acc.locked
  · simp [ClientAccount.deposit, hl] at h
  · cases ha : acc.available.checkedAdd amount with
    | error e => simp [ClientAccount.deposit, hl, ha] at h
    | ok v =>
      by_cases hn : v.is_negative
      · simp [ClientAccount.deposit, hl, ha, hn] at h
      · cases ht : acc.transactions.lookup tx with
        | some w => simp [ClientAccount.deposit, hl, ha, hn, ht] at h
        | none =>
          refine ⟨by simp [hl], v, rfl, by simp [hn], rfl, ?_⟩
          simp [ClientAccount.deposit, hl, ha, hn, ht]

theorem create_dispute_eq_of_ok (acc : ClientAccount) (tx : TransactionId)
    (amount nh na : CurrencyAmount)
    (hl : acc.transactions.lookup tx = some amount)
    (hh : acc.held.checkedAdd amount = .ok nh)
    (ha : acc.available.checkedSub amount = .ok na)
    (hd : tx ∉ acc.active_disputes) :
    acc.create_dispute tx =
      (.ok (), { acc with
        active_disputes := tx :: acc.active_disputes
        held := nh
        available := na }) := by
  simp [ClientAccount.create_dispute, insertSet, hl, hh, ha, hd]

theorem create_dispute_ok_inv (acc : ClientAccount) (tx : TransactionId)
    (h : (acc.create_dispute tx).1 = .ok ()) :
    ∃ amount nh na, acc.transactions.lookup tx = some amount ∧
      acc.held.checkedAdd amount = .ok nh ∧
      acc.available.checkedSub amount = .ok na ∧
      tx ∉ acc.active_disputes ∧
      (acc.create_dispute tx).2 =
        { acc with
          active_disputes := tx :: acc.active_disputes
          held := nh
          available := na } := by
  cases hl : acc.transactions.lookup tx with
  | none => simp [ClientAccount.create_dispute, hl] at h
  | some amount =>
    cases hh : acc.held.checkedAdd amount with
    | error e => simp [ClientAccount.create_dispute, hl, hh] at h
    | ok nh =>
      cases ha : acc.available.checkedSub amount with
      | error e => simp [ClientAccount.create_dispute, hl, hh, ha] at h
      | ok na =>
        by_cases hd : tx ∈ acc.active_disputes
        · simp [ClientAccount.create_dispute, insertSet, hl, hh, ha, hd] at h
        · exact ⟨amount, nh, na, rfl, hh, ha, hd,
            by simp [ClientAccount.create_dispute, insertSet, hl, hh, ha, hd]⟩

theorem resolve_eq_of_ok (acc : ClientAccount) (tx : TransactionId)
    (amount nh na : CurrencyAmount)
    (hl : acc.transactions.lookup tx = some amount)
    (hh : acc.held.checkedSub amount = .ok nh)
    (ha : acc.available.checkedAdd amount = .ok na)
    (hd : tx ∈ acc.active_disputes) :
    acc.resolve_dispute tx .Resolve =
      (.ok (), { acc with
        active_disputes := acc.active_disputes.filter (fun x => x ≠ tx)
        held := nh
        available := na }) := by
  simp [ClientAccount.resolve_dispute, removeSet, hl, hh, ha, hd]

theorem chargeback_eq_of_ok (acc : ClientAccount) (tx : TransactionId)
    (amount nh : CurrencyAmount)
    (hl : acc.transactions.lookup tx = some amount)
    (hh : acc.held.checkedSub amount = .ok nh)
    (hd : tx ∈ acc.active_disputes) :
    acc.resolve_dispute tx .Chargeback =
      (.ok (), { acc with
        active_disputes := acc.active_disputes.filter (fun x => x ≠ tx)
        transactions := acc.transactions.filter (fun p => p.1 ≠ tx)
        locked := true
        held := nh }) := by
  simp [ClientAccount.resolve_dispute, removeSet, hl, hh, hd]

theorem resolve_ok_inv (acc : ClientAccount) (tx : TransactionId)
    (h : (acc.resolve_dispute tx .Resolve).1 = .ok ()) :
    ∃ amount nh na, acc.transactions.lookup tx = some amount ∧
      acc.held.checkedSub amount = .ok nh ∧
      acc.available.checkedAdd amount = .ok na ∧
      tx ∈ acc.active_disputes ∧
      (acc.resolve_dispute tx .Resolve).2 =
        { acc with
          active_disputes := acc.active_disputes.filter (fun x => x ≠ tx)
          held := nh
          available := na } := by
  cases hl : acc.transactions.lookup tx with
  | none => simp [ClientAccount.resolve_dispute, hl] at h
  | some amount =>
    cases hh : acc.held.checkedSub amount with
    | error e => simp [ClientAccount.resolve_dispute, hl, hh] at h
    | ok nh =>
      cases ha : acc.available.checkedAdd amount with
      | error e => simp [ClientAccount.resolve_dispute, hl, hh, ha] at h
      | ok na =>
        by_cases hd : tx ∈ acc.active_disputes
        · exact ⟨amount, nh, na, rfl, hh, ha, hd,
            by simp [ClientAccount.resolve_dispute, removeSet, hl, hh, ha, hd]⟩
        · simp [ClientAccount.resolve_dispute, removeSet, hl, hh, ha, hd] at h

theorem chargeback_ok_inv (acc : ClientAccount) (tx : TransactionId)
    (h : (acc.resolve_dispute tx .Chargeback).1 = .ok ()) :
    ∃ amount nh, acc.transactions.lookup tx = some amount ∧
      acc.held.checkedSub amount = .ok nh ∧
      tx ∈ acc.active_disputes ∧
      (acc.resolve_dispute tx .Chargeback).2 =
        { acc with
          active_disputes := acc.active_disputes.filter (fun x => x ≠ tx)
          transactions := acc.transactions.filter (fun p => p.1 ≠ tx)
          locked := true
          held := nh } := by
  cases hl : acc.transactions.lookup tx with
  | none => simp [ClientAccount.resolve_dispute, hl] at h
  | some amount =>
    cases hh : acc.held.checkedSub amount with
    | error e => simp [ClientAccount.resolve_dispute, hl, hh] at h
    | ok nh =>
      by_cases hd : tx ∈ acc.active_disputes
      · exact ⟨amount, nh, rfl, hh, hd,
          by simp [ClientAccount.resolve_dispute, removeSet, hl, hh, hd]⟩
      · simp [ClientAccount.resolve_dispute, removeSet, hl, hh, hd] at h

/-- C1: for every client account and every operation among deposit,
withdraw, create_dispute and resolve_dispute (Resolve or Chargeback),
if the operation returns any error then the whole account state, and
hence each of the five fields available, held, locked, transactions
and active_disputes, is exactly as it was before the call. -/
theorem C1_error_leaves_state_unchanged (acc : ClientAccount) (op : AccountOp)
    (e : TransactionError) (h : (acc.applyOp op).1 = .error e) :
    (acc.applyOp op).2 = acc := by
  rcases applyOp_ok_or_id acc op with hok | hid
  · rw [h] at hok
    exact absurd hok (by simp)
  · exact hid

/-- Witness for C1 at a concrete input: disputing an unknown
transaction on a fresh account errors and leaves the account as it
was. -/
theorem C1_error_leaves_state_unchanged_witness :
    (ClientAccount.new.applyOp (.dispute 1)).1 = .error (.TransactionDoesNotExist 1) ∧
      (ClientAccount.new.applyOp (.dispute 1)).2 = ClientAccount.new :=
  ⟨by decide,
   C1_error_leaves_state_unchanged ClientAccount.new (.dispute 1)
     (.TransactionDoesNotExist 1) (by decide)⟩

/-- C2 counterexample: on a reachable unlocked account where
transaction 1 is already recorded, a deposit reusing id 1 with amount
-5 fails NotEnoughFunds, not TransactionAlreadyExists: the duplicate
check does not take priority over the NotEnoughFunds check. -/
theorem C2_deposit_order_counterexample :
    (ClientAccount.run ClientAccount.new [.deposit 1 ⟨5, 0⟩, .withdraw 2 ⟨5, 0⟩] =
      { available := ⟨0, 0⟩, held := ⟨0, 0⟩
        transactions := [(2, ⟨-5, 0⟩), (1, ⟨5, 0⟩)], active_disputes := [], locked := false }) ∧
    ((ClientAccount.run ClientAccount.new
        [.deposit 1 ⟨5, 0⟩, .withdraw 2 ⟨5, 0⟩]).transactions.lookup 1 = some ⟨5, 0⟩) ∧
    ((ClientAccount.run ClientAccount.new
        [.deposit 1 ⟨5, 0⟩, .withdraw 2 ⟨5, 0⟩]).deposit 1 ⟨-5, 0⟩).1 = .error .NotEnoughFunds ∧
    ((ClientAccount.run ClientAccount.new
        [.deposit 1 ⟨5, 0⟩, .withdraw 2 ⟨5, 0⟩]).deposit 1 ⟨-5, 0⟩).1 ≠
      .error (.TransactionAlreadyExists 1) := by
  refine ⟨by decide, by decide, by decide, by decide⟩

/-- C2 amended: deposit(tx, amount) fails AccountIsLocked if the
account is locked; otherwise computes available + amount, propagating
CurrencyError on overflow; otherwise fails NotEnoughFunds if the new
available is negative; otherwise fails TransactionAlreadyExists(tx) if
tx is already in records (so the arithmetic checks take priority over
the duplicate check, not the other way around); on success it inserts
records[tx] = amount and sets available to the new value. -/
theorem C2_deposit_check_order (acc : ClientAccount) (tx : TransactionId)
    (amount : CurrencyAmount) :
    (acc.locked = true → acc.deposit tx amount = (.error .AccountIsLocked, acc)) ∧
    (∀ e, acc.locked = false → acc.available.checkedAdd amount = .error e →
      acc.deposit tx amount = (.error (.CurrencyError e), acc)) ∧
    (∀ v, acc.locked = false → acc.available.checkedAdd amount = .ok v →
      v.is_negative = true → acc.deposit tx amount = (.error .NotEnoughFunds, acc)) ∧
    (∀ v w, acc.locked = false → acc.available.checkedAdd amount = .ok v →
      v.is_negative = false → acc.transactions.lookup tx = some w →
      acc.deposit tx amount = (.error (.TransactionAlreadyExists tx), acc)) ∧
    (∀ v, acc.locked = false → acc.available.checkedAdd amount = .ok v →
      v.is_negative = false → acc.transactions.lookup tx = none →
      acc.deposit tx amount = (.ok (),
        { acc with transactions := (tx, amount) :: acc.transactions, available := v })) := by
  refine ⟨?_, ?_, ?_, ?_, ?_⟩
  · intro hl; simp [ClientAccount.deposit, hl]
  · intro e hl ha; simp [ClientAccount.deposit, hl, ha]
  · intro v hl ha hn; simp [ClientAccount.deposit, hl, ha, hn]
  · intro v w hl ha hn ht; simp [ClientAccount.deposit, hl, ha, hn, ht]
  · intro v hl ha hn ht; exact deposit_eq_of_ok acc tx amount v hl ha hn ht

/-- Witness for the amended C2 at a concrete input: a first deposit of
5 on a fresh account succeeds and records the amount. -/
theorem C2_deposit_check_order_witness :
    ClientAccount.new.deposit 1 ⟨5, 0⟩ = (.ok (),
      { ClientAccount.new with
        transactions := [(1, ⟨5, 0⟩)], available := ⟨5, 0⟩ }) :=
  (C2_deposit_check_order ClientAccount.new 1 ⟨5, 0⟩).2.2.2.2 ⟨5, 0⟩ (by decide)
    (by decide) (by decide) (by decide)

/-- C3 counterexample: from a fresh account, deposit 10 as transaction
1, withdraw 10 as transaction 2, then dispute transaction 1: the
dispute succeeds and leaves available = -10, negative; disputing the
withdrawal instead leaves held = -10, negative. -/
theorem C3_dispute_negative_counterexample :
    (ClientAccount.run ClientAccount.new [.deposit 1 ⟨10, 0⟩, .withdraw 2 ⟨10, 0⟩] =
      { available := ⟨0, 0⟩, held := ⟨0, 0⟩
        transactions := [(2, ⟨-10, 0⟩), (1, ⟨10, 0⟩)], active_disputes := [], locked := false }) ∧
    (((ClientAccount.run ClientAccount.new
        [.deposit 1 ⟨10, 0⟩, .withdraw 2 ⟨10, 0⟩]).create_dispute 1).1 = .ok ()) ∧
    (((ClientAccount.run ClientAccount.new
        [.deposit 1 ⟨10, 0⟩, .withdraw 2 ⟨10, 0⟩]).create_dispute 1).2.available.is_negative
      = true) ∧
    (((ClientAccount.run ClientAccount.new
        [.deposit 1 ⟨10, 0⟩, .withdraw 2 ⟨10, 0⟩]).create_dispute 2).1 = .ok ()) ∧
    (((ClientAccount.run ClientAccount.new
        [.deposit 1 ⟨10, 0⟩, .withdraw 2 ⟨10, 0⟩]).create_dispute 2).2.held.is_negative
      = true) := by
  refine ⟨by decide, by decide, by decide, by decide, by decide⟩

/-- C3 amended: available never becomes negative as a direct result of
a successful deposit or withdraw (the NotEnoughFunds floor, which also
leaves held untouched); dispute-related transitions carry no such
floor, and a successful create_dispute or resolve_dispute can leave
available or held negative. -/
theorem C3_deposit_withdraw_floor (acc : ClientAccount) (tx : TransactionId)
    (amount : CurrencyAmount) :
    ((acc.deposit tx amount).1 = .ok () →
      (acc.deposit tx amount).2.available.is_negative = false ∧
      (acc.deposit tx amount).2.held = acc.held) ∧
    ((acc.withdraw tx amount).1 = .ok () →
      (acc.withdraw tx amount).2.available.is_negative = false ∧
      (acc.withdraw tx amount).2.held = acc.held) := by
  constructor
  · intro h
    obtain ⟨-, v, -, hn, -, hs⟩ := deposit_ok_inv acc tx amount h
    rw [hs]
    exact ⟨hn, rfl⟩
  · intro h
    obtain ⟨-, v, -, hn, -, hs⟩ := deposit_ok_inv acc tx amount.neg h
    rw [ClientAccount.withdraw] at *
    rw [hs]
    exact ⟨hn, rfl⟩

/-- Witness for the amended C3 at a concrete input: a withdrawal of 3
after a deposit of 5 succeeds and leaves available non-negative. -/
theorem C3_deposit_withdraw_floor_witness :
    ((ClientAccount.run ClientAccount.new [.deposit 1 ⟨5, 0⟩]).withdraw 2 ⟨3, 0⟩).1 = .ok () ∧
    ((ClientAccount.run ClientAccount.new
        [.deposit 1 ⟨5, 0⟩]).withdraw 2 ⟨3, 0⟩).2.available.is_negative = false :=
  ⟨by decide,
   ((C3_deposit_withdraw_floor (ClientAccount.run ClientAccount.new [.deposit 1 ⟨5, 0⟩])
      2 ⟨3, 0⟩).2 (by decide)).1⟩

theorem create_dispute_ignores_lock (acc : ClientAccount) (tx : TransactionId) (b : Bool) :
    ({ acc with locked := b } : ClientAccount).create_dispute tx =
      ((({ acc with locked := false } : ClientAccount).create_dispute tx).1,
       { (({ acc with locked := false } : ClientAccount).create_dispute tx).2 with
         locked := b }) := by
  unfold ClientAccount.create_dispute insertSet
  by_cases htx : tx ∈ acc.active_disputes <;>
    cases hl : acc.transactions.lookup tx <;>
    simp [htx, hl] <;>
    (try cases hadd : acc.held.checkedAdd _) <;>
    simp [htx, hl] <;>
    (try cases hsub : acc.available.checkedSub _) <;>
    simp [htx, hl]

theorem resolve_ignores_lock (acc : ClientAccount) (tx : TransactionId) (b : Bool) :
    ({ acc with locked := b } : ClientAccount).resolve_dispute tx .Resolve =
      ((({ acc with locked := false } : ClientAccount).resolve_dispute tx .Resolve).1,
       { (({ acc with locked := false } : ClientAccount).resolve_dispute tx .Resolve).2 with
         locked := b }) := by
  unfold ClientAccount.resolve_dispute removeSet
  by_cases htx : tx ∈ acc.active_disputes <;>
    cases hl : acc.transactions.lookup tx <;>
    simp [htx, hl] <;>
    (try cases hsub : acc.held.checkedSub _) <;>
    simp [htx, hl] <;>
    (try cases hadd : acc.available.checkedAdd _) <;>
    simp [htx, hl]

theorem chargeback_ignores_lock (acc : ClientAccount) (tx : TransactionId) (b : Bool) :
    (({ acc with locked := b } : ClientAccount).resolve_dispute tx .Chargeback).1 =
      (({ acc with locked := false } : ClientAccount).resolve_dispute tx .Chargeback).1 ∧
    ({ (({ acc with locked := b } : ClientAccount).resolve_dispute tx .Chargeback).2 with
       locked := false } =
     { (({ acc with locked := false } : ClientAccount).resolve_dispute tx .Chargeback).2 with
       locked := false }) ∧
    ((({ acc with locked := b } : ClientAccount).resolve_dispute tx .Chargeback).1 = .ok () →
      (({ acc with locked := b } : ClientAccount).resolve_dispute tx .Chargeback).2 =
        (({ acc with locked := false } : ClientAccount).resolve_dispute tx .Chargeback).2) := by
  unfold ClientAccount.resolve_dispute removeSet
  by_cases htx : tx ∈ acc.active_disputes <;>
    cases hl : acc.transactions.lookup tx <;>
    simp [htx, hl] <;>
    (try cases hsub : acc.held.checkedSub _) <;>
    simp [htx, hl]

theorem create_dispute_never_lock_error (acc : ClientAccount) (tx : TransactionId) :
    (acc.create_dispute tx).1 ≠ .error .AccountIsLocked := by
  unfold ClientAccount.create_dispute insertSet
  by_cases htx : tx ∈ acc.active_disputes <;>
    cases hl : acc.transactions.lookup tx <;>
    simp [htx, hl] <;>
    (try cases hadd : acc.held.checkedAdd _) <;>
    simp [htx, hl] <;>
    (try cases hsub : acc.available.checkedSub _) <;>
    simp [htx, hl]

theorem resolve_dispute_never_lock_error (acc : ClientAccount) (tx : TransactionId)
    (resolution : DisputeResolution) :
    (acc.resolve_dispute tx resolution).1 ≠ .error .AccountIsLocked := by
  unfold ClientAccount.resolve_dispute removeSet
  by_cases htx : tx ∈ acc.active_disputes <;>
    cases resolution <;>
    cases hl : acc.transactions.lookup tx <;>
    simp [htx, hl] <;>
    (try cases hsub : acc.held.checkedSub _) <;>
    simp [htx, hl] <;>
    (try cases hadd : acc.available.checkedAdd _) <;>
    simp [htx, hl]

/-- C5: for every locked account, deposit and withdraw fail with
AccountIsLocked and leave the account unchanged, while create_dispute
and resolve_dispute never return AccountIsLocked and behave exactly as
they would on an otherwise-identical unlocked account: result and
effect on every field other than the locked flag itself are
independent of the lock (create_dispute and Resolve carry the lock
through unchanged; a successful Chargeback sets it to true either
way), because the locked flag is not consulted by dispute, resolve or
chargeback. -/
theorem C5_lock_asymmetry :
    (∀ (acc : ClientAccount) (tx : TransactionId) (amount : CurrencyAmount),
      ({ acc with locked := true } : ClientAccount).deposit tx amount =
        (.error .AccountIsLocked, { acc with locked := true }) ∧
      ({ acc with locked := true } : ClientAccount).withdraw tx amount =
        (.error .AccountIsLocked, { acc with locked := true })) ∧
    (∀ (acc : ClientAccount) (tx : TransactionId) (b : Bool),
      ({ acc with locked := b } : ClientAccount).create_dispute tx =
        ((({ acc with locked := false } : ClientAccount).create_dispute tx).1,
         { (({ acc with locked := false } : ClientAccount).create_dispute tx).2 with
           locked := b }) ∧
      ({ acc with locked := b } : ClientAccount).resolve_dispute tx .Resolve =
        ((({ acc with locked := false } : ClientAccount).resolve_dispute tx .Resolve).1,
         { (({ acc with locked := false } : ClientAccount).resolve_dispute tx .Resolve).2 with
           locked := b }) ∧
      (({ acc with locked := b } : ClientAccount).resolve_dispute tx .Chargeback).1 =
        (({ acc with locked := false } : ClientAccount).resolve_dispute tx .Chargeback).1 ∧
      ({ (({ acc with locked := b } : ClientAccount).resolve_dispute tx .Chargeback).2 with
         locked := false } =
       { (({ acc with locked := false } : ClientAccount).resolve_dispute tx .Chargeback).2 with
         locked := false }) ∧
      ((({ acc with locked := b } : ClientAccount).resolve_dispute tx .Chargeback).1 = .ok () →
        (({ acc with locked := b } : ClientAccount).resolve_dispute tx .Chargeback).2 =
          (({ acc with locked := false } : ClientAccount).resolve_dispute tx .Chargeback).2)) ∧
    (∀ (acc : ClientAccount) (tx : TransactionId) (resolution : DisputeResolution),
      (acc.create_dispute tx).1 ≠ .error .AccountIsLocked ∧
      (acc.resolve_dispute tx resolution).1 ≠ .error .AccountIsLocked) := by
  refine ⟨?_, ?_, ?_⟩
  · intro acc tx amount
    constructor <;> simp [ClientAccount.deposit, ClientAccount.withdraw]
  · intro acc tx b
    obtain ⟨h1, h2, h3⟩ := chargeback_ignores_lock acc tx b
    exact ⟨create_dispute_ignores_lock acc tx b, resolve_ignores_lock acc tx b, h1, h2, h3⟩
  · intro acc tx resolution
    exact ⟨create_dispute_never_lock_error acc tx,
      resolve_dispute_never_lock_error acc tx resolution⟩

theorem lookup_none_filter (l : List (TransactionId × CurrencyAmount)) (tx : TransactionId)
    (p : TransactionId × CurrencyAmount → Bool) (h : l.lookup tx = none) :
    (l.filter p).lookup tx = none := by
  simp only [List.lookup_eq_none_iff, bne_iff_ne, ne_eq, Prod.forall] at h ⊢
  intro a b hab
  exact h a b (List.mem_of_mem_filter hab)

theorem lookup_filter_self (l : List (TransactionId × CurrencyAmount)) (tx : TransactionId) :
    (l.filter (fun p => p.1 ≠ tx)).lookup tx = none := by
  simp only [List.lookup_eq_none_iff, bne_iff_ne, ne_eq, Prod.forall]
  intro a b hab
  have h2 : a ≠ tx := by simpa using List.of_mem_filter hab
  exact fun he => h2 he.symm

theorem step_preserves_locked_gone (acc : ClientAccount) (tx : TransactionId) (op : AccountOp)
    (hl : acc.locked = true) (ht : acc.transactions.lookup tx = none) :
    (acc.step op).locked = true ∧ (acc.step op).transactions.lookup tx = none := by
  rcases applyOp_ok_or_id acc op with hok | hid
  · cases op with
    | deposit tx2 amount =>
      simp only [ClientAccount.step, ClientAccount.applyOp, ClientAccount.deposit, hl]
      exact ⟨hl, ht⟩
    | withdraw tx2 amount =>
      simp only [ClientAccount.step, ClientAccount.applyOp, ClientAccount.withdraw,
        ClientAccount.deposit, hl]
      exact ⟨hl, ht⟩
    | dispute tx2 =>
      obtain ⟨amount, nh, na, -, -, -, -, hs⟩ := create_dispute_ok_inv acc tx2 hok
      rw [ClientAccount.step, ClientAccount.applyOp, hs]
      exact ⟨hl, ht⟩
    | resolve tx2 =>
      obtain ⟨amount, nh, na, -, -, -, -, hs⟩ := resolve_ok_inv acc tx2 hok
      rw [ClientAccount.step, ClientAccount.applyOp, hs]
      exact ⟨hl, ht⟩
    | chargeback tx2 =>
      obtain ⟨amount, nh, -, -, -, hs⟩ := chargeback_ok_inv acc tx2 hok
      rw [ClientAccount.step, ClientAccount.applyOp, hs]
      exact ⟨rfl, lookup_none_filter _ _ _ ht⟩
  · rw [ClientAccount.step, hid]
    exact ⟨hl, ht⟩

theorem run_preserves_locked_gone (acc : ClientAccount) (tx : TransactionId)
    (ops : List AccountOp) (hl : acc.locked = true)
    (ht : acc.transactions.lookup tx = none) :
    (acc.run ops).locked = true ∧ (acc.run ops).transactions.lookup tx = none := by
  induction ops generalizing acc with
  | nil => exact ⟨hl, ht⟩
  | cons op rest ih =>
    obtain ⟨hl2, ht2⟩ := step_preserves_locked_gone acc tx op hl ht
    exact ih (acc.step op) hl2 ht2

/-- C4: for every account where tx is in records with recorded amount
a and tx is in active_disputes, a successful Chargeback resolution
removes tx from active_disputes and from records, sets locked to true,
decreases held by a (held becomes the checked difference held - a) and
leaves available unchanged; consequently any later create_dispute(tx)
on that account, after any further sequence of operations, fails
TransactionDoesNotExist(tx). -/
theorem C4_chargeback_effect (acc : ClientAccount) (tx : TransactionId) (a : CurrencyAmount)
    (hrec : acc.transactions.lookup tx = some a)
    (hd : tx ∈ acc.active_disputes)
    (hok : (acc.resolve_dispute tx .Chargeback).1 = .ok ()) :
    ((acc.resolve_dispute tx .Chargeback).2.transactions.lookup tx = none) ∧
    (tx ∉ (acc.resolve_dispute tx .Chargeback).2.active_disputes) ∧
    ((acc.resolve_dispute tx .Chargeback).2.locked = true) ∧
    (acc.held.checkedSub a = .ok (acc.resolve_dispute tx .Chargeback).2.held) ∧
    ((acc.resolve_dispute tx .Chargeback).2.available = acc.available) ∧
    (∀ ops : List AccountOp,
      ((((acc.resolve_dispute tx .Chargeback).2).run ops).create_dispute tx).1 =
        .error (.TransactionDoesNotExist tx)) := by
  obtain ⟨amount, nh, hl2, hh, hd2, hs⟩ := chargeback_ok_inv acc tx hok
  have hamount : amount = a := by
    rw [hrec] at hl2
    exact (Option.some.injEq _ _ ▸ hl2).symm
  subst hamount
  rw [hs]
  refine ⟨lookup_filter_self _ _, by simp [List.mem_filter], rfl, hh, rfl, ?_⟩
  intro ops
  have hrun := run_preserves_locked_gone
    ({ acc with
       active_disputes := acc.active_disputes.filter (fun x => x ≠ tx)
       transactions := acc.transactions.filter (fun p => p.1 ≠ tx)
       locked := true
       held := nh } : ClientAccount) tx ops rfl (lookup_filter_self _ _)
  revert hrun
  generalize ({ acc with
    active_disputes := acc.active_disputes.filter (fun x => x ≠ tx)
    transactions := acc.transactions.filter (fun p => p.1 ≠ tx)
    locked := true
    held := nh } : ClientAccount).run ops = s
  intro hrun
  simp [ClientAccount.create_dispute, hrun.2]

/-- Witness for C4 at a concrete input: deposit 10 as transaction 1,
dispute it, charge it back; the account is locked and a later dispute
of transaction 1 (after a further failed deposit) fails
TransactionDoesNotExist. -/
theorem C4_chargeback_effect_witness :
    (((ClientAccount.run ClientAccount.new [.deposit 1 ⟨10, 0⟩, .dispute 1]).resolve_dispute 1
        .Chargeback).2.locked = true) ∧
    (((((ClientAccount.run ClientAccount.new
          [.deposit 1 ⟨10, 0⟩, .dispute 1]).resolve_dispute 1
        .Chargeback).2.run [.deposit 2 ⟨5, 0⟩]).create_dispute 1).1 =
      .error (.TransactionDoesNotExist 1)) := by
  obtain ⟨-, -, h3, -, -, h6⟩ := C4_chargeback_effect
    (ClientAccount.run ClientAccount.new [.deposit 1 ⟨10, 0⟩, .dispute 1]) 1 ⟨10, 0⟩
    (by decide) (by decide) (by decide)
  exact ⟨h3, h6 [.deposit 2 ⟨5, 0⟩]⟩

theorem lookup_filter_ne (l : List (TransactionId × CurrencyAmount)) (tx tx2 : TransactionId)
    (h : tx2 ≠ tx) :
    (l.filter (fun p => p.1 ≠ tx)).lookup tx2 = l.lookup tx2 := by
  induction l with
  | nil => rfl
  | cons hd tl ih =>
    obtain ⟨k, v⟩ := hd
    simp only [ne_eq, decide_not] at ih ⊢
    by_cases he : k = tx
    · simp [List.filter_cons, he, List.lookup_cons, beq_eq_false_iff_ne.mpr h, ih]
    · simp only [List.filter_cons, he, decide_False, Bool.not_false, if_true]
      rw [List.lookup_cons, List.lookup_cons]
      cases hbe : (tx2 == k) <;> simp [ih]

theorem create_dispute_transactions_eq (acc : ClientAccount) (tx : TransactionId) :
    (acc.create_dispute tx).2.transactions = acc.transactions := by
  unfold ClientAccount.create_dispute insertSet
  by_cases htx : tx ∈ acc.active_disputes <;>
    cases hl : acc.transactions.lookup tx <;>
    simp [htx, hl] <;>
    (try cases hadd : acc.held.checkedAdd _) <;>
    simp [htx, hl] <;>
    (try cases hsub : acc.available.checkedSub _) <;>
    simp [htx, hl]

theorem resolve_dispute_transactions_sub (acc : ClientAccount) (tx tx2 : TransactionId)
    (resolution : DisputeResolution)
    (h : ((acc.resolve_dispute tx resolution).2.transactions.lookup tx2).isSome = true) :
    (acc.transactions.lookup tx2).isSome = true := by
  cases hl2 : acc.transactions.lookup tx2 with
  | some w => rfl
  | none =>
    exfalso
    rcases resolve_dispute_ok_or_id acc tx resolution with hok | hid
    · cases resolution with
      | Resolve =>
        obtain ⟨amount, nh, na, -, -, -, -, hs⟩ := resolve_ok_inv acc tx hok
        rw [hs] at h
        simp only [hl2] at h
        simp at h
      | Chargeback =>
        obtain ⟨amount, nh, -, -, -, hs⟩ := chargeback_ok_inv acc tx hok
        rw [hs] at h
        have := lookup_none_filter acc.transactions tx2 (fun p => p.1 ≠ tx) hl2
        simp only [this] at h
        simp at h
    · rw [hid, hl2] at h
      simp at h

theorem step_preserves_inv (acc : ClientAccount) (op : AccountOp)
    (hinv : AccountInv acc) : AccountInv (acc.step op) := by
  obtain ⟨hdisp, hnodup⟩ := hinv
  rcases applyOp_ok_or_id acc op with hok | hid
  · cases op with
    | deposit tx amount =>
      obtain ⟨-, v, -, -, ht, hs⟩ := deposit_ok_inv acc tx amount hok
      rw [ClientAccount.step, ClientAccount.applyOp, hs]
      constructor
      · intro tx2 hm
        rw [List.lookup_cons]
        cases hbe : (tx2 == tx) <;> simp [hdisp tx2 hm]
      · refine List.Nodup.cons ?_ hnodup
        intro hmem
        simp only [List.mem_map, Prod.exists] at hmem
        obtain ⟨a, b, hab, hfst⟩ := hmem
        simp only [List.lookup_eq_none_iff, bne_iff_ne, ne_eq, Prod.forall] at ht
        exact ht a b hab hfst.symm
    | withdraw tx amount =>
      obtain ⟨-, v, -, -, ht, hs⟩ := deposit_ok_inv acc tx amount.neg hok
      rw [ClientAccount.step, ClientAccount.applyOp, ClientAccount.withdraw, hs]
      constructor
      · intro tx2 hm
        rw [List.lookup_cons]
        cases hbe : (tx2 == tx) <;> simp [hdisp tx2 hm]
      · refine List.Nodup.cons ?_ hnodup
        intro hmem
        simp only [List.mem_map, Prod.exists] at hmem
        obtain ⟨a, b, hab, hfst⟩ := hmem
        simp only [List.lookup_eq_none_iff, bne_iff_ne, ne_eq, Prod.forall] at ht
        exact ht a b hab hfst.symm
    | dispute tx =>
      obtain ⟨amount, nh, na, hl, -, -, -, hs⟩ := create_dispute_ok_inv acc tx hok
      rw [ClientAccount.step, ClientAccount.applyOp, hs]
      refine ⟨?_, hnodup⟩
      intro tx2 hm
      rcases List.mem_cons.mp hm with he | hm2
      · rw [he, hl]; rfl
      · exact hdisp tx2 hm2
    | resolve tx =>
      obtain ⟨amount, nh, na, -, -, -, -, hs⟩ := resolve_ok_inv acc tx hok
      rw [ClientAccount.step, ClientAccount.applyOp, hs]
      refine ⟨?_, hnodup⟩
      intro tx2 hm
      exact hdisp tx2 (List.mem_of_mem_filter hm)
    | chargeback tx =>
      obtain ⟨amount, nh, -, -, -, hs⟩ := chargeback_ok_inv acc tx hok
      rw [ClientAccount.step, ClientAccount.applyOp, hs]
      constructor
      · intro tx2 hm
        have hmem := List.mem_of_mem_filter hm
        have hne : tx2 ≠ tx := by simpa using List.of_mem_filter hm
        rw [lookup_filter_ne acc.transactions tx tx2 hne]
        exact hdisp tx2 hmem
      · exact List.Nodup.sublist (List.Sublist.map Prod.fst (List.filter_sublist _)) hnodup
  · rw [ClientAccount.step, hid]
    exact ⟨hdisp, hnodup⟩

theorem run_preserves_inv (acc : ClientAccount) (ops : List AccountOp)
    (hinv : AccountInv acc) : AccountInv (acc.run ops) := by
  induction ops generalizing acc with
  | nil => exact hinv
  | cons op rest ih => exact ih (acc.step op) (step_preserves_inv acc op hinv)

/-- C6: for every account state reachable from a fresh account by any
sequence of operations (successful or failed), every transaction id in
active_disputes is also a key of records, and the record keys are
distinct, so records maps each transaction id to at most one amount;
moreover entries are entered only by a deposit or withdrawal:
create_dispute and resolve_dispute never add a key to records. -/
theorem C6_records_invariant :
    (∀ acc : ClientAccount, ReachableAccount acc →
      (∀ tx ∈ acc.active_disputes, (acc.transactions.lookup tx).isSome = true) ∧
      (acc.transactions.map Prod.fst).Nodup) ∧
    (∀ (acc : ClientAccount) (tx tx2 : TransactionId),
      ((acc.create_dispute tx).2.transactions.lookup tx2).isSome = true →
        (acc.transactions.lookup tx2).isSome = true) ∧
    (∀ (acc : ClientAccount) (tx tx2 : TransactionId) (resolution : DisputeResolution),
      ((acc.resolve_dispute tx resolution).2.transactions.lookup tx2).isSome = true →
        (acc.transactions.lookup tx2).isSome = true) := by
  refine ⟨?_, ?_, ?_⟩
  · rintro acc ⟨ops, rfl⟩
    exact run_preserves_inv ClientAccount.new ops ⟨by intro tx h; simp [ClientAccount.new] at h, by simp [ClientAccount.new]⟩
  · intro acc tx tx2 h
    rwa [create_dispute_transactions_eq] at h
  · intro acc tx tx2 resolution h
    exact resolve_dispute_transactions_sub acc tx tx2 resolution h

/-- Witness for C6 at a concrete input: after deposit 10 as
transaction 1 and a dispute of transaction 1, the reachable state has
transaction 1 recorded and its record keys distinct. -/
theorem C6_records_invariant_witness :
    (((ClientAccount.run ClientAccount.new
        [.deposit 1 ⟨10, 0⟩, .dispute 1]).transactions.lookup 1).isSome = true) ∧
    ((ClientAccount.run ClientAccount.new
        [.deposit 1 ⟨10, 0⟩, .dispute 1]).transactions.map Prod.fst).Nodup :=
  ⟨(C6_records_invariant.1 _ ⟨[.deposit 1 ⟨10, 0⟩, .dispute 1], rfl⟩).1 1 (by decide),
   (C6_records_invariant.1 _ ⟨[.deposit 1 ⟨10, 0⟩, .dispute 1], rfl⟩).2⟩

theorem scale_cast (m : Int) (s t : Nat) (ht : t ≤ s) :
    (m : ℚ) * (10 : ℚ) ^ (s - t) / 10 ^ s = (m : ℚ) / 10 ^ t := by
  have h10 : (10 : ℚ) ^ s = 10 ^ (s - t) * 10 ^ t := by
    rw [← pow_add, Nat.sub_add_cancel ht]
  have h1 : (10 : ℚ) ^ (s - t) ≠ 0 := by positivity
  have h2 : (10 : ℚ) ^ t ≠ 0 := by positivity
  rw [h10]
  field_simp
  ring

theorem val_sum_eq (a b : CurrencyAmount) :
    a.val + b.val =
      ((a.mantissa * (10 : Int) ^ (max a.scale b.scale - a.scale) +
        b.mantissa * (10 : Int) ^ (max a.scale b.scale - b.scale) : Int) : ℚ) /
        10 ^ (max a.scale b.scale) := by
  unfold CurrencyAmount.val
  push_cast
  rw [add_div, scale_cast a.mantissa _ _ (le_max_left _ _),
    scale_cast b.mantissa _ _ (le_max_right _ _)]

theorem val_diff_eq (a b : CurrencyAmount) :
    a.val - b.val =
      ((a.mantissa * (10 : Int) ^ (max a.scale b.scale - a.scale) -
        b.mantissa * (10 : Int) ^ (max a.scale b.scale - b.scale) : Int) : ℚ) /
        10 ^ (max a.scale b.scale) := by
  unfold CurrencyAmount.val
  push_cast
  rw [sub_div, scale_cast a.mantissa _ _ (le_max_left _ _),
    scale_cast b.mantissa _ _ (le_max_right _ _)]

theorem checkedAdd_ok_val (a b c : CurrencyAmount) (h : a.checkedAdd b = .ok c) :
    c.val = a.val + b.val := by
  unfold CurrencyAmount.checkedAdd at h
  by_cases hlt : (a.mantissa * (10 : Int) ^ (max a.scale b.scale - a.scale) +
      b.mantissa * (10 : Int) ^ (max a.scale b.scale - b.scale)).natAbs < maxMantissa
  · rw [if_pos hlt] at h
    obtain rfl := Except.ok.inj h
    rw [val_sum_eq]
    rfl
  · rw [if_neg hlt] at h
    exact absurd h (by simp)

theorem checkedSub_ok_val (a b c : CurrencyAmount) (h : a.checkedSub b = .ok c) :
    c.val = a.val - b.val := by
  unfold CurrencyAmount.checkedSub at h
  by_cases hlt : (a.mantissa * (10 : Int) ^ (max a.scale b.scale - a.scale) -
      b.mantissa * (10 : Int) ^ (max a.scale b.scale - b.scale)).natAbs < maxMantissa
  · rw [if_pos hlt] at h
    obtain rfl := Except.ok.inj h
    rw [val_diff_eq]
    rfl
  · rw [if_neg hlt] at h
    exact absurd h (by simp)

theorem is_negative_iff_val_neg (a : CurrencyAmount) :
    a.is_negative = true ↔ a.val < 0 := by
  unfold CurrencyAmount.is_negative CurrencyAmount.val
  have hp : (0 : ℚ) < 10 ^ a.scale := by positivity
  rw [decide_eq_true_eq, div_neg_iff]
  constructor
  · intro h
    exact Or.inr ⟨by exact_mod_cast h, hp⟩
  · rintro (⟨-, h2⟩ | ⟨h1, -⟩)
    · exact absurd hp (not_lt.mpr (le_of_lt h2))
    · exact_mod_cast h1

theorem checkedAdd_error_iff (a b : CurrencyAmount) :
    a.checkedAdd b = .error .OutOfBounds ↔
      (maxMantissa : ℚ) ≤ |a.val + b.val| * 10 ^ (max a.scale b.scale) := by
  rw [val_sum_eq]
  unfold CurrencyAmount.checkedAdd
  have hp : (0 : ℚ) < 10 ^ (max a.scale b.scale) := by positivity
  rw [abs_div, abs_of_pos hp, div_mul_cancel₀ _ (ne_of_gt hp)]
  set m := a.mantissa * (10 : Int) ^ (max a.scale b.scale - a.scale) +
    b.mantissa * (10 : Int) ^ (max a.scale b.scale - b.scale) with hm
  by_cases hlt : m.natAbs < maxMantissa
  · rw [if_pos hlt]
    simp only [reduceCtorEq, false_iff, not_le]
    rw [← Int.cast_abs, Int.abs_eq_natAbs]
    exact_mod_cast hlt
  · rw [if_neg hlt]
    simp only [true_iff]
    rw [← Int.cast_abs, Int.abs_eq_natAbs]
    exact_mod_cast not_lt.mp hlt

theorem checkedSub_error_iff (a b : CurrencyAmount) :
    a.checkedSub b = .error .OutOfBounds ↔
      (maxMantissa : ℚ) ≤ |a.val - b.val| * 10 ^ (max a.scale b.scale) := by
  rw [val_diff_eq]
  unfold CurrencyAmount.checkedSub
  have hp : (0 : ℚ) < 10 ^ (max a.scale b.scale) := by positivity
  rw [abs_div, abs_of_pos hp, div_mul_cancel₀ _ (ne_of_gt hp)]
  set m := a.mantissa * (10 : Int) ^ (max a.scale b.scale - a.scale) -
    b.mantissa * (10 : Int) ^ (max a.scale b.scale - b.scale) with hm
  by_cases hlt : m.natAbs < maxMantissa
  · rw [if_pos hlt]
    simp only [reduceCtorEq, false_iff, not_le]
    rw [← Int.cast_abs, Int.abs_eq_natAbs]
    exact_mod_cast hlt
  · rw [if_neg hlt]
    simp only [true_iff]
    rw [← Int.cast_abs, Int.abs_eq_natAbs]
    exact_mod_cast not_lt.mp hlt

theorem checkedAdd_comm (a b : CurrencyAmount) : a.checkedAdd b = b.checkedAdd a := by
  simp only [CurrencyAmount.checkedAdd]
  rw [max_comm b.scale a.scale,
    add_comm (b.mantissa * (10 : Int) ^ (max a.scale b.scale - b.scale))
      (a.mantissa * (10 : Int) ^ (max a.scale b.scale - a.scale))]

/-- C8: for all amounts a and b, checked addition and subtraction fail
with OutOfBounds exactly when the true mathematical result''s magnitude
reaches the representable bound at the result scale max(sa, sb)
(2^96 scaled by 10^-max(sa, sb)); any in-range result is the exact
rational sum or difference with no rounding; and addition is
commutative. -/
theorem C8_checked_arithmetic :
    (∀ a b : CurrencyAmount,
      (a.checkedAdd b = .error .OutOfBounds ↔
        (maxMantissa : ℚ) ≤ |a.val + b.val| * 10 ^ (max a.scale b.scale)) ∧
      (a.checkedSub b = .error .OutOfBounds ↔
        (maxMantissa : ℚ) ≤ |a.val - b.val| * 10 ^ (max a.scale b.scale))) ∧
    (∀ a b c : CurrencyAmount, a.checkedAdd b = .ok c → c.val = a.val + b.val) ∧
    (∀ a b c : CurrencyAmount, a.checkedSub b = .ok c → c.val = a.val - b.val) ∧
    (∀ a b : CurrencyAmount, a.checkedAdd b = b.checkedAdd a) :=
  ⟨fun a b => ⟨checkedAdd_error_iff a b, checkedSub_error_iff a b⟩,
   checkedAdd_ok_val, checkedSub_ok_val, checkedAdd_comm⟩

/-- Witness for C8 at a concrete input: 2.5 + 5 computes exactly to
7.5 at scale 1. -/
theorem C8_checked_arithmetic_witness :
    CurrencyAmount.checkedAdd ⟨25, 1⟩ ⟨5, 0⟩ = .ok ⟨75, 1⟩ ∧
    CurrencyAmount.val ⟨75, 1⟩ = CurrencyAmount.val ⟨25, 1⟩ + CurrencyAmount.val ⟨5, 0⟩ :=
  ⟨by decide, C8_checked_arithmetic.2.1 ⟨25, 1⟩ ⟨5, 0⟩ ⟨75, 1⟩ (by decide)⟩

theorem neg_val (a : CurrencyAmount) : a.neg.val = -a.val := by
  unfold CurrencyAmount.neg CurrencyAmount.val
  push_cast
  ring

/-- C10: the core performs no sign validation on amounts.  A deposit
of a strictly negative amount on an unlocked account behaves like a
withdrawal: on success it records the negative amount under tx and
strictly decreases available, and it can fail NotEnoughFunds (shown at
a concrete input).  A withdrawal of a strictly negative amount records
the positive negation of the amount and strictly increases available.
So the sign of a records entry does not always tell a deposit from a
withdrawal. -/
theorem C10_no_sign_validation :
    (∀ (acc : ClientAccount) (tx : TransactionId) (amount : CurrencyAmount),
      acc.locked = false → amount.is_negative = true →
      (acc.deposit tx amount).1 = .ok () →
      ((acc.deposit tx amount).2.transactions.lookup tx = some amount ∧
       amount.val < 0 ∧
       (acc.deposit tx amount).2.available.val < acc.available.val)) ∧
    (ClientAccount.new.deposit 1 ⟨-1, 0⟩ = (.error .NotEnoughFunds, ClientAccount.new)) ∧
    (∀ (acc : ClientAccount) (tx : TransactionId) (amount : CurrencyAmount),
      amount.is_negative = true →
      (acc.withdraw tx amount).1 = .ok () →
      ((acc.withdraw tx amount).2.transactions.lookup tx = some amount.neg ∧
       0 < amount.neg.val ∧
       acc.available.val < (acc.withdraw tx amount).2.available.val)) := by
  refine ⟨?_, by decide, ?_⟩
  · intro acc tx amount hl hneg hok
    obtain ⟨-, v, ha, -, -, hs⟩ := deposit_ok_inv acc tx amount hok
    have hval := checkedAdd_ok_val acc.available amount v ha
    have hnegval := (is_negative_iff_val_neg amount).mp hneg
    rw [hs]
    refine ⟨by rw [List.lookup_cons]; simp, hnegval, ?_⟩
    show v.val < acc.available.val
    rw [hval]
    linarith
  · intro acc tx amount hneg hok
    rw [ClientAccount.withdraw] at hok ⊢
    obtain ⟨-, v, ha, -, -, hs⟩ := deposit_ok_inv acc tx amount.neg hok
    have hval := checkedAdd_ok_val acc.available amount.neg v ha
    have hnegval := (is_negative_iff_val_neg amount).mp hneg
    have hnv : 0 < amount.neg.val := by rw [neg_val]; linarith
    rw [hs]
    refine ⟨by rw [List.lookup_cons]; simp, hnv, ?_⟩
    show acc.available.val < v.val
    rw [hval]
    linarith

/-- Witness for C10 at a concrete input: on an account holding 10, a
deposit of -5 under fresh id 2 succeeds, records -5 and lowers
available; a withdrawal of -5 under fresh id 3 records +5 and raises
available. -/
theorem C10_no_sign_validation_witness :
    (((ClientAccount.run ClientAccount.new [.deposit 1 ⟨10, 0⟩]).deposit 2
        ⟨-5, 0⟩).2.transactions.lookup 2 = some ⟨-5, 0⟩) ∧
    (((ClientAccount.run ClientAccount.new [.deposit 1 ⟨10, 0⟩]).withdraw 3
        ⟨-5, 0⟩).2.transactions.lookup 3 = some (CurrencyAmount.neg ⟨-5, 0⟩)) :=
  ⟨(C10_no_sign_validation.1 (ClientAccount.run ClientAccount.new [.deposit 1 ⟨10, 0⟩]) 2
      ⟨-5, 0⟩ (by decide) (by decide) (by decide)).1,
   (C10_no_sign_validation.2.2 (ClientAccount.run ClientAccount.new [.deposit 1 ⟨10, 0⟩]) 3
      ⟨-5, 0⟩ (by decide) (by decide)).1⟩

theorem generate_report_eq_filterMap (tp : TransactionProcessor) :
    tp.generate_report = tp.clients.filterMap reportRow := rfl

theorem reportRow_client (p : ClientId × ClientAccount) (e : ReportEntry)
    (h : reportRow p = some e) : e.client = p.1 := by
  unfold reportRow at h
  cases ht : p.2.total with
  | ok t => rw [ht] at h; exact ((Option.some.inj h).symm ▸ rfl)
  | error err => rw [ht] at h; cases h

theorem reportRow_isSome_iff (p : ClientId × ClientAccount) :
    (reportRow p).isSome = true ↔ ∃ t, p.2.total = .ok t := by
  unfold reportRow
  cases ht : p.2.total with
  | ok t => simp
  | error err => simp

theorem filterMap_clients_sorted (l : List (ClientId × ClientAccount))
    (h : (l.map Prod.fst).Pairwise (· < ·)) :
    ((l.filterMap reportRow).map ReportEntry.client).Pairwise (· < ·) := by
  induction l with
  | nil => simp
  | cons p l ih =>
    rw [List.map_cons, List.pairwise_cons] at h
    rw [List.filterMap_cons]
    cases hr : reportRow p with
    | none => exact ih h.2
    | some e =>
      rw [List.map_cons, List.pairwise_cons]
      refine ⟨?_, ih h.2⟩
      intro c hc
      simp only [List.mem_map] at hc
      obtain ⟨e2, he2, rfl⟩ := hc
      obtain ⟨p2, hp2, hr2⟩ := List.mem_filterMap.mp he2
      rw [reportRow_client p e hr, reportRow_client p2 e2 hr2]
      exact h.1 p2.1 (List.mem_map_of_mem Prod.fst hp2)

theorem key_unique (l : List (ClientId × ClientAccount)) (h : (l.map Prod.fst).Nodup)
    (p q : ClientId × ClientAccount) (hp : p ∈ l) (hq : q ∈ l) (he : p.1 = q.1) : p = q := by
  induction l with
  | nil => cases hp
  | cons hd tl ih =>
    rw [List.map_cons, List.nodup_cons] at h
    rcases List.mem_cons.mp hp with rfl | hp2
    · rcases List.mem_cons.mp hq with rfl | hq2
      · rfl
      · exact absurd (he ▸ List.mem_map_of_mem Prod.fst hq2) h.1
    · rcases List.mem_cons.mp hq with rfl | hq2
      · exact absurd (he ▸ List.mem_map_of_mem Prod.fst hp2) h.1
      · exact ih h.2 hp2 hq2

/-- C7: for every dispatcher state (an ordered map, so its keys are
strictly ascending), generate_report emits rows in strictly ascending
client-id order; every emitted row comes from an account of the state
and carries that account''s available, held and locked together with
total equal to the checked (and therefore exact) sum available + held
computed at snapshot time; and an account has a row exactly when that
sum does not overflow, so exactly the overflowing accounts are
omitted.  The Rust method takes the processor by shared reference and
is embedded as a pure function of the state, so it mutates no account
state. -/
theorem C7_generate_report (tp : TransactionProcessor)
    (hsorted : (tp.clients.map Prod.fst).Pairwise (· < ·)) :
    ((tp.generate_report.map ReportEntry.client).Pairwise (· < ·)) ∧
    (∀ e ∈ tp.generate_report, ∃ acc, (e.client, acc) ∈ tp.clients ∧
      e.available = acc.available ∧ e.held = acc.held ∧ e.locked = acc.locked ∧
      acc.total = .ok e.total ∧ e.total.val = acc.available.val + acc.held.val) ∧
    (∀ p ∈ tp.clients,
      (∃ e ∈ tp.generate_report, e.client = p.1) ↔ ∃ t, p.2.total = .ok t) := by
  refine ⟨filterMap_clients_sorted tp.clients hsorted, ?_, ?_⟩
  · intro e he
    rw [generate_report_eq_filterMap] at he
    obtain ⟨p, hp, hr⟩ := List.mem_filterMap.mp he
    unfold reportRow at hr
    cases ht : p.2.total with
    | error err => rw [ht] at hr; cases hr
    | ok t =>
      rw [ht] at hr
      obtain rfl := Option.some.inj hr
      exact ⟨p.2, hp, rfl, rfl, rfl, ht,
        checkedAdd_ok_val p.2.available p.2.held t ht⟩
  · intro p hp
    constructor
    · rintro ⟨e, he, hc⟩
      rw [generate_report_eq_filterMap] at he
      obtain ⟨p2, hp2, hr2⟩ := List.mem_filterMap.mp he
      have hkeys : (tp.clients.map Prod.fst).Nodup := hsorted.nodup
      have hpp : p2 = p :=
        key_unique tp.clients hkeys p2 p hp2 hp ((reportRow_client p2 e hr2).symm.trans hc)
      rw [← reportRow_isSome_iff p, ← hpp, hr2]
      rfl
    · rintro ⟨t, ht⟩
      refine ⟨{ client := p.1
                available := p.2.available
                held := p.2.held
                total := t
                locked := p.2.locked }, ?_, rfl⟩
      rw [generate_report_eq_filterMap]
      refine List.mem_filterMap.mpr ⟨p, hp, ?_⟩
      unfold reportRow
      rw [ht]

/-- Witness for C7 at a concrete input: a two-account state where the
second account''s total overflows produces exactly the first
account''s row, in ascending order. -/
theorem C7_generate_report_witness :
    (TransactionProcessor.generate_report ⟨[
      (1, { available := ⟨5, 0⟩, held := ⟨0, 0⟩, transactions := [],
            active_disputes := [], locked := false }),
      (2, { available := ⟨79228162514264337593543950335, 0⟩, held := ⟨1, 0⟩,
            transactions := [], active_disputes := [], locked := false })]⟩ =
      [{ client := 1, available := ⟨5, 0⟩, held := ⟨0, 0⟩, total := ⟨5, 0⟩,
         locked := false }]) ∧
    ((TransactionProcessor.generate_report ⟨[
      (1, { available := ⟨5, 0⟩, held := ⟨0, 0⟩, transactions := [],
            active_disputes := [], locked := false }),
      (2, { available := ⟨79228162514264337593543950335, 0⟩, held := ⟨1, 0⟩,
            transactions := [], active_disputes := [], locked := false })]⟩).map
        ReportEntry.client).Pairwise (· < ·) :=
  ⟨by decide,
   (C7_generate_report ⟨[
      (1, { available := ⟨5, 0⟩, held := ⟨0, 0⟩, transactions := [],
            active_disputes := [], locked := false }),
      (2, { available := ⟨79228162514264337593543950335, 0⟩, held := ⟨1, 0⟩,
            transactions := [], active_disputes := [], locked := false })]⟩ (by decide)).1⟩

theorem digitChar_facts (d : Nat) (h : d < 10) :
    charDigit (digitChar d) = d ∧ isDigitChar (digitChar d) = true ∧
    digitChar d ≠ '-' ∧ digitChar d ≠ '+' ∧ digitChar d ≠ '.' := by
  interval_cases d <;> exact ⟨by decide, by decide, by decide, by decide, by decide⟩

theorem digitsLSD_lt (fuel n : Nat) : ∀ d ∈ digitsLSD fuel n, d < 10 := by
  induction fuel generalizing n with
  | zero => intro d hd; cases hd
  | succ fuel ih =>
    intro d hd
    rw [digitsLSD] at hd
    by_cases hn : n = 0
    · simp [hn] at hd
    · rw [if_neg hn] at hd
      rcases List.mem_cons.mp hd with rfl | hd2
      · exact Nat.mod_lt n (by norm_num)
      · exact ih (n / 10) d hd2

theorem ofDigits_digitsLSD (fuel n : Nat) (h : n ≤ fuel) :
    Nat.ofDigits 10 (digitsLSD fuel n) = n := by
  induction fuel generalizing n with
  | zero => interval_cases n; rfl
  | succ fuel ih =>
    rw [digitsLSD]
    by_cases hn : n = 0
    · simp [hn]
    · have hdiv : n / 10 ≤ fuel := by
        have : n / 10 < n := Nat.div_lt_self (Nat.pos_of_ne_zero hn) (by norm_num)
        omega
      rw [if_neg hn, Nat.ofDigits_cons, ih (n / 10) hdiv]
      omega

theorem foldl_digits_eq_ofDigits (L : List Nat) (a : Nat) :
    L.foldl (fun acc d => 10 * acc + d) a =
      a * 10 ^ L.length + Nat.ofDigits 10 L.reverse := by
  induction L generalizing a with
  | nil => simp
  | cons d L ih =>
    rw [List.foldl_cons, ih, List.reverse_cons, Nat.ofDigits_append]
    simp only [Nat.ofDigits_singleton, List.length_reverse, List.length_cons, pow_succ]
    ring

theorem natVal_fold_aux (L : List Nat) (a : Nat) (h : ∀ d ∈ L, d < 10) :
    (L.map digitChar).foldl (fun acc c => 10 * acc + charDigit c) a =
      L.foldl (fun acc d => 10 * acc + d) a := by
  induction L generalizing a with
  | nil => rfl
  | cons d L ih =>
    rw [List.map_cons, List.foldl_cons, List.foldl_cons,
      (digitChar_facts d (h d (List.mem_cons_self d L))).1]
    exact ih _ (fun x hx => h x (List.mem_cons_of_mem d hx))

theorem foldl_replicate_zero (k : Nat) (L : List Nat) :
    (List.replicate k 0 ++ L).foldl (fun acc d => 10 * acc + d) 0 =
      L.foldl (fun acc d => 10 * acc + d) 0 := by
  induction k with
  | zero => rfl
  | succ k ih =>
    rw [List.replicate_succ, List.cons_append, List.foldl_cons]
    simpa using ih


theorem padded_spec (m s : Nat) :
    (∀ d ∈ List.replicate (s + 1 - (natDigits m).reverse.length) 0 ++
      (natDigits m).reverse, d < 10) ∧
    s + 1 ≤ (List.replicate (s + 1 - (natDigits m).reverse.length) 0 ++
      (natDigits m).reverse).length ∧
    natVal ((List.replicate (s + 1 - (natDigits m).reverse.length) 0 ++
      (natDigits m).reverse).map digitChar) = m := by
  refine ⟨?_, ?_, ?_⟩
  · intro d hd
    rcases List.mem_append.mp hd with h1 | h2
    · have := List.eq_of_mem_replicate h1
      omega
    · exact digitsLSD_lt m m d (List.mem_reverse.mp h2)
  · rw [List.length_append, List.length_replicate]
    omega
  · have hdig : ∀ d ∈ List.replicate (s + 1 - (natDigits m).reverse.length) 0 ++
        (natDigits m).reverse, d < 10 := by
      intro d hd
      rcases List.mem_append.mp hd with h1 | h2
      · have := List.eq_of_mem_replicate h1
        omega
      · exact digitsLSD_lt m m d (List.mem_reverse.mp h2)
    rw [natVal, natVal_fold_aux _ 0 hdig, foldl_replicate_zero,
      foldl_digits_eq_ofDigits, List.reverse_reverse, natDigits,
      ofDigits_digitsLSD m m le_rfl]
    simp

theorem takeWhile_append_all (p : Char → Bool) (xs ys : List Char)
    (h : ∀ x ∈ xs, p x = true) :
    (xs ++ ys).takeWhile p = xs ++ ys.takeWhile p ∧
    (xs ++ ys).dropWhile p = ys.dropWhile p := by
  induction xs with
  | nil => exact ⟨rfl, rfl⟩
  | cons x xs ih =>
    obtain ⟨h1, h2⟩ := ih (fun y hy => h y (List.mem_cons_of_mem x hy))
    have hx := h x (List.mem_cons_self x xs)
    rw [List.cons_append, List.takeWhile_cons, List.dropWhile_cons, hx]
    simp only [if_true]
    exact ⟨by rw [h1, List.cons_append], h2⟩

theorem takeWhile_all_eq (p : Char → Bool) (xs : List Char) (h : ∀ x ∈ xs, p x = true) :
    xs.takeWhile p = xs ∧ xs.dropWhile p = [] := by
  have := takeWhile_append_all p xs [] h
  simpa using this


theorem parseUnsigned_format (padded : List Nat) (s : Nat)
    (hlen : s + 1 ≤ padded.length) (hdig : ∀ d ∈ padded, d < 10) :
    parseUnsigned ((padded.take (padded.length - s)).map digitChar ++
      (if s = 0 then [] else
        '.' :: (padded.drop (padded.length - s)).map digitChar)) =
      some (natVal (padded.map digitChar), s) := by
  have hint_dig : ∀ c ∈ (padded.take (padded.length - s)).map digitChar,
      isDigitChar c = true := by
    intro c hc
    obtain ⟨d, hd, rfl⟩ := List.mem_map.mp hc
    exact (digitChar_facts d (hdig d (List.take_subset _ _ hd))).2.1
  have hint_ne : ((padded.take (padded.length - s)).map digitChar).isEmpty = false := by
    rw [List.isEmpty_eq_false_iff_exists_mem]
    have hl : (padded.take (padded.length - s)).length = padded.length - s := by
      rw [List.length_take]
      omega
    have : 0 < (padded.take (padded.length - s)).length := by omega
    obtain ⟨c, hc⟩ := List.exists_mem_of_length_pos this
    exact ⟨digitChar c, List.mem_map_of_mem digitChar hc⟩
  by_cases hs : s = 0
  · subst hs
    rw [if_pos rfl, List.append_nil]
    simp only [Nat.sub_zero, List.take_length] at hint_dig hint_ne
    obtain ⟨ht, hdw⟩ := takeWhile_all_eq isDigitChar _ hint_dig
    rw [parseUnsigned]
    simp only [Nat.sub_zero, List.take_length, hdw, ht, hint_ne]
    simp
  · rw [if_neg hs]
    obtain ⟨ht, hdw⟩ := takeWhile_append_all isDigitChar _
      ('.' :: (padded.drop (padded.length - s)).map digitChar) hint_dig
    rw [parseUnsigned]
    have hdot : isDigitChar '.' = false := by decide
    simp only [ht, hdw, List.takeWhile_cons, List.dropWhile_cons, hdot,
      Bool.false_eq_true, if_false, List.append_nil]
    have hfrac : ((padded.drop (padded.length - s)).map digitChar).all isDigitChar = true := by
      rw [List.all_eq_true]
      intro c hc
      obtain ⟨d, hd, rfl⟩ := List.mem_map.mp hc
      exact (digitChar_facts d (hdig d (List.drop_subset _ _ hd))).2.1
    simp only [hfrac, hint_ne, Bool.not_false, Bool.true_or, Bool.true_and, if_true]
    rw [← List.map_append, List.take_append_drop, List.length_map, List.length_drop]
    have hss : padded.length - (padded.length - s) = s := by omega
    rw [hss]


theorem toList_mk (l : List Char) : (String.mk l).toList = l := rfl

theorem isDigitChar_ne_sign (c : Char) (h : isDigitChar c = true) :
    c ≠ '-' ∧ c ≠ '+' := by
  constructor <;> rintro rfl <;> simp [isDigitChar] at h

theorem parse_format_roundtrip (m : Int) (s : Nat) (h : m.natAbs < maxMantissa) :
    parseAmount (formatAmount ⟨m, s⟩) = .ok ⟨m, s⟩ := by
  obtain ⟨hdig, hlen, hval⟩ := padded_spec m.natAbs s
  simp only [formatAmount, parseAmount, toList_mk]
  set padded := List.replicate (s + 1 - (natDigits m.natAbs).reverse.length) 0 ++
    (natDigits m.natAbs).reverse with hpadded
  set intChars := (padded.take (padded.length - s)).map digitChar with hic
  set tail := (if s = 0 then ([] : List Char) else
    '.' :: (padded.drop (padded.length - s)).map digitChar) with htail
  by_cases hm : m < 0
  · rw [if_pos hm, List.singleton_append, List.cons_append, List.head?_cons,
      List.tail_cons, if_pos (Or.inl rfl), parseUnsigned_format padded s hlen hdig, hval]
    have hneg : -((m.natAbs : Nat) : Int) = m := by omega
    simp [h, hneg]
    rw [abs_of_neg hm]
    ring
  · rw [if_neg hm, List.nil_append]
    have hlen2 : 0 < intChars.length := by
      rw [hic, List.length_map, List.length_take]
      omega
    obtain ⟨c, rest, hcr⟩ : ∃ c rest, intChars = c :: rest := by
      cases hcase : intChars with
      | nil => rw [hcase] at hlen2; cases hlen2
      | cons c rest => exact ⟨c, rest, rfl⟩
    have hcmem : isDigitChar c = true := by
      have : c ∈ intChars := by rw [hcr]; exact List.mem_cons_self c rest
      rw [hic] at this
      obtain ⟨d, hd, rfl⟩ := List.mem_map.mp this
      exact (digitChar_facts d (hdig d (List.take_subset _ _ hd))).2.1
    obtain ⟨hne1, hne2⟩ := isDigitChar_ne_sign c hcmem
    have hhead : (intChars ++ tail).head? = some c := by
      rw [hcr, List.cons_append, List.head?_cons]
    rw [hhead]
    have hcond : ¬(some c = some '-' ∨ some c = some '+') := by
      rintro (hc | hc) <;> [exact hne1 (Option.some.inj hc); exact hne2 (Option.some.inj hc)]
    rw [if_neg hcond, parseUnsigned_format padded s hlen hdig, hval]
    have hpos : ((m.natAbs : Nat) : Int) = m := by omega
    simp [h, hpos, hne1]


theorem format_sign (m : Int) (s : Nat) :
    (m < 0 → (formatAmount ⟨m, s⟩).toList.head? = some '-') ∧
    (¬m < 0 → '-' ∉ (formatAmount ⟨m, s⟩).toList) := by
  obtain ⟨hdig, hlen, -⟩ := padded_spec m.natAbs s
  simp only [formatAmount, toList_mk]
  constructor
  · intro hm
    rw [if_pos hm, List.singleton_append, List.cons_append, List.head?_cons]
  · intro hm hmem
    rw [if_neg hm, List.nil_append] at hmem
    rcases List.mem_append.mp hmem with h1 | h2
    · obtain ⟨d, hd, he⟩ := List.mem_map.mp h1
      exact (digitChar_facts d (hdig d (List.take_subset _ _ hd))).2.2.1 he
    · by_cases hs : s = 0
      · rw [if_pos hs] at h2
        cases h2
      · rw [if_neg hs] at h2
        rcases List.mem_cons.mp h2 with he | h3
        · cases he
        · obtain ⟨d, hd, he⟩ := List.mem_map.mp h3
          exact (digitChar_facts d (hdig d (List.drop_subset _ _ hd))).2.2.1 he

/-- C9: for every amount whose mantissa magnitude is representable,
parsing the formatted string succeeds and returns the amount itself
(structurally, hence with equal numeric value and with the scale, and
so the trailing zeros, preserved), and the formatted string carries a
leading sign character exactly when the amount is strictly negative;
moreover parse("12.3456") formats back to "12.3456", parse("-0")
formats to "0" (negative zero collapses), and parse(".5") formats to
"0.5".  Parsing and formatting are delegated by src/numeric.rs to the
external rust_decimal crate and are modelled here from the spec. -/
theorem C9_parse_format :
    (∀ a : CurrencyAmount, a.mantissa.natAbs < maxMantissa →
      parseAmount (formatAmount a) = .ok a ∧
      (a.is_negative = true → (formatAmount a).toList.head? = some '-') ∧
      (a.is_negative = false → '-' ∉ (formatAmount a).toList)) ∧
    (parseAmount "12.3456").map formatAmount = .ok "12.3456" ∧
    (parseAmount "-0").map formatAmount = .ok "0" ∧
    (parseAmount ".5").map formatAmount = .ok "0.5" := by
  refine ⟨?_, by decide, by decide, by decide⟩
  intro a h
  obtain ⟨m, s⟩ := a
  have hsign := format_sign m s
  refine ⟨parse_format_roundtrip m s h, ?_, ?_⟩
  · intro hneg
    exact hsign.1 (by simpa [CurrencyAmount.is_negative] using hneg)
  · intro hneg
    refine hsign.2 ?_
    simpa [CurrencyAmount.is_negative] using hneg

/-- Witness for C9 at a concrete input: the amount with mantissa
123456 and scale 4 formats to "12.3456" and parses back to itself. -/
theorem C9_parse_format_witness :
    parseAmount (formatAmount ⟨123456, 4⟩) = .ok ⟨123456, 4⟩ ∧
    formatAmount ⟨123456, 4⟩ = "12.3456" :=
  ⟨(C9_parse_format.1 ⟨123456, 4⟩ (by decide)).1, by decide⟩

end TxProc
